import Mathlib

/-!
Shallow embedding of the `xit` revision-tracking engine (Rust) for checking
its natural-language specification.

Conventions of the embedding:
* Machine bytes are `Nat` values (< 256 where it matters); byte buffers are
  `List Nat`.  Rust `String`s are Lean `String`s; the concrete inputs used in
  theorems are ASCII, for which Rust's byte-wise view and the codepoint view
  agree.
* The filesystem is a value `FS`: a partial map from path strings to file
  contents, plus a set of directories and an optional HOME directory.
  Mutating Rust functions become functions `… → FS → Res α × FS`.
* Fallible Rust code (`io::Result`) returns `Res α`; a Rust panic (slice out
  of range) is the distinguished outcome `Res.panicked`; `Res.outOfFuel` is
  produced only by the fuel-indexed tree walk, which models the unbounded
  recursion of `list_files_recursive`.
* External library calls are modelled deterministically: SHA-1
  (`sha1` crate) as a fixed 20-byte digest function, zlib compression
  (`flate2` crate) as the identity encoding.  Only determinism of both and
  inequality of digests at concrete inputs are ever used.
-/

/-- Outcome of a fallible operation: mirrors `std::io::ErrorKind` values the
source constructs. -/
inductive ErrKind where
  | notFound
  | invalidData
  | invalidInput
  | alreadyExists
  deriving DecidableEq, Repr

/-- Result of running a piece of the embedded program.  `panicked` models a
Rust panic (out-of-range slice); `outOfFuel` is the marker used by the
fuel-indexed interpreter of the recursive tree walk. -/
inductive Res (α : Type) where
  | ok : α → Res α
  | err : ErrKind → Res α
  | panicked : Res α
  | outOfFuel : Res α
  deriving DecidableEq, Repr

/-- `Some`-projection used for Rust's `Result::ok()`. -/
def Res.toOption {α : Type} : Res α → Option α
  | .ok a => some a
  | _ => none

/-- Codepoints of a string, standing for its bytes (exact for ASCII). -/
def strBytes (s : String) : List Nat := s.data.map Char.toNat

/-- Bytes back to a string (models `String::from_utf8_lossy` /
`read_to_string` on the ASCII inputs used here). -/
def ofBytes (l : List Nat) : String := String.mk (l.map Char.ofNat)

/-- Split a character list at every occurrence of `sep` (the single-character
case of Rust `str::split` / Lean `String.splitOn`, reimplemented structurally
so that it evaluates inside the kernel). -/
def splitOnChar (sep : Char) (l : List Char) : List (List Char) :=
  go l []
where
  go : List Char → List Char → List (List Char)
    | [], acc => [acc.reverse]
    | c :: rest, acc =>
      if c = sep then acc.reverse :: go rest [] else go rest (c :: acc)

/-- Rust `str::lines`: pieces between `'\n'` terminators, dropping one
trailing empty piece and a `'\r'` at the end of each line. -/
def rustLines (s : String) : List String :=
  let pieces := splitOnChar '\x0a' s.data
  let pieces := if pieces.getLast? = some [] then pieces.dropLast else pieces
  (if s.data = [] then [] else pieces).map fun l =>
    String.mk (if l.getLast? = some '\x0d' then l.dropLast else l)

/-- Rust `str::trim` on the character list. -/
def rustTrim (l : List Char) : List Char :=
  ((l.dropWhile Char.isWhitespace).reverse.dropWhile Char.isWhitespace).reverse

/-- Rust `str::split_whitespace`: maximal runs of non-whitespace characters
(`acc` carries the reversed current run). -/
def wsTokensAux : List Char → List Char → List (List Char)
  | [], acc => if acc = [] then [] else [acc.reverse]
  | c :: rest, acc =>
    if c.isWhitespace then
      if acc = [] then wsTokensAux rest [] else acc.reverse :: wsTokensAux rest []
    else wsTokensAux rest (c :: acc)

/-- Rust `str::split_whitespace` as a list of tokens. -/
def wsTokens (l : List Char) : List (List Char) := wsTokensAux l []

/-- Rust `str::splitn(2, sep)`: at most two pieces, split at the first
occurrence of the separator. -/
def splitn2 (sep : Char) (s : String) : List String :=
  match s.data.findIdx? (· = sep) with
  | none => [s]
  | some i => [String.mk (s.data.take i), String.mk (s.data.drop (i + 1))]

/-- Model of `sha1::Sha1` (`compute_sha1` in `objects/blob.rs`): a
deterministic 20-byte digest of the input bytes.  The source relies on the
digest being a pure function of the bytes; nothing else about SHA-1 is used,
and digest inequalities are only ever established at concrete inputs. -/
def compute_sha1 (data : List Nat) : List Nat :=
  let s := data.foldl (fun a b => (a * 131 + b + 17) % (2 ^ 160)) 1
  (List.range 20).map fun i => s / 256 ^ i % 256

/-- Model of `flate2` zlib compression (`compress_zlib` in
`objects/blob.rs`): a deterministic, invertible encoding; modelled as the
identity on byte buffers (only determinism is ever used). -/
def compress_zlib (data : List Nat) : List Nat := data

/-- One lowercase hex digit. -/
def hexChar (n : Nat) : Char := Char.ofNat (if n < 10 then 48 + n else 87 + n)

/-- `hash_to_hex` from `objects/blob.rs`: two lowercase hex digits per byte. -/
def hash_to_hex (hash : List Nat) : String :=
  String.mk (hash.foldr (fun b acc => hexChar (b / 16) :: hexChar (b % 16) :: acc) [])

/-- Value of one hex digit, as accepted by `u8::from_str_radix(_, 16)`. -/
def hexVal (c : Char) : Option Nat :=
  if '0' ≤ c ∧ c ≤ '9' then some (c.toNat - 48)
  else if 'a' ≤ c ∧ c ≤ 'f' then some (c.toNat - 87)
  else if 'A' ≤ c ∧ c ≤ 'F' then some (c.toNat - 55)
  else none

/-- `hex_to_bytes` from `repository/utils.rs`: parse two hex characters per
byte.  On an odd-length string the source slices `&hex[i..i+2]` past the end
and panics. -/
def hex_to_bytes : List Char → Res (List Nat)
  | [] => .ok []
  | [_] => .panicked
  | c1 :: c2 :: rest =>
    match hexVal c1, hexVal c2 with
    | some h, some l =>
      match hex_to_bytes rest with
      | .ok bs => .ok ((h * 16 + l) :: bs)
      | e => e
    | _, _ => .err .invalidData

/-- Rust `char::is_ascii_hexdigit`. -/
def isAsciiHexdigit (c : Char) : Bool :=
  ('0' ≤ c ∧ c ≤ '9') ∨ ('a' ≤ c ∧ c ≤ 'f') ∨ ('A' ≤ c ∧ c ≤ 'F')

/-- The filesystem state: file contents by path, directories, and the HOME
environment variable consulted by the config reader. -/
structure FS where
  files : String → Option (List Nat)
  dirs : String → Bool
  home : Option String

/-- `Path::exists` for the paths the source checks (files or directories). -/
def FS.pathExists (fs : FS) (p : String) : Bool :=
  fs.dirs p || (fs.files p).isSome

/-- `std::fs::write`: create or truncate the file at `p`. -/
def FS.write (fs : FS) (p : String) (v : List Nat) : FS :=
  { fs with files := fun q => if q = p then some v else fs.files q }

/-- `std::fs::create_dir_all` (parents of the leaf are irrelevant to every
path the source later tests, so only the leaf is recorded). -/
def FS.addDir (fs : FS) (p : String) : FS :=
  { fs with dirs := fun q => q = p || fs.dirs q }

/-- `std::fs::remove_file`. -/
def FS.removeFile (fs : FS) (p : String) : Res FS :=
  match fs.files p with
  | some _ => .ok { fs with files := fun q => if q = p then none else fs.files q }
  | none => .err .notFound

/-- `std::fs::read_to_string` (inputs used here are ASCII/valid UTF-8). -/
def FS.readStr (fs : FS) (p : String) : Option String :=
  (fs.files p).map ofBytes

/-- Output of `create_blob`: the hex address, the filesystem after the call,
and the trace of paths passed to `std::fs::write` during the call (the
observable "the file was (re)written" event, standing in for the mtime
change). -/
structure BlobOut where
  hash : String
  fs : FS
  writes : List String

/-- Path of the object with hex address `h`:
`.xit/objects/<h[0..2]>/<h[2..]>`. -/
def objectPath (h : String) : String :=
  ".xit/objects/" ++ String.mk (h.data.take 2) ++ "/" ++ String.mk (h.data.drop 2)

/-- `create_blob` from `objects/blob.rs`: header `blob <len>\0`, hash,
compress, create the fan-out directory and write the object file.  The write
is unconditional in the source (`std::fs::write(path, compressed_data)?`),
which the trace records. -/
def create_blob (content : List Nat) (fs : FS) : BlobOut :=
  let header := "blob " ++ toString content.length ++ String.mk ['\x00']
  let data := strBytes header ++ content
  let hash := compute_sha1 data
  let compressed := compress_zlib data
  let hashStr := hash_to_hex hash
  let dirPath := ".xit/objects/" ++ String.mk (hashStr.data.take 2)
  let path := dirPath ++ "/" ++ String.mk (hashStr.data.drop 2)
  let fs1 := (fs.addDir dirPath).write path compressed
  ⟨hashStr, fs1, [path]⟩

/-- A tree entry (`TreeEntry` in `objects/tree.rs`). -/
structure TreeEntry where
  mode : String
  obj_type : String
  hash : List Nat
  name : String
  deriving DecidableEq, Repr

/-- Byte-wise ascending order on entry names, as in Rust's `String::cmp`. -/
def bytesLe : List Nat → List Nat → Bool
  | [], _ => true
  | _ :: _, [] => false
  | a :: as_, b :: bs => decide (a < b) || (decide (a = b) && bytesLe as_ bs)

/-- Insert `x` into the sorted list, before the first element it is `le` to
(so an element inserted from further left stays left of its equals). -/
def stableInsert (le : α → α → Bool) (x : α) : List α → List α
  | [] => [x]
  | y :: ys => if le x y then x :: y :: ys else y :: stableInsert le x ys

/-- Rust's stable `sort_by`, as a stable insertion sort (extensionally the
sort the source performs; reimplemented structurally so that it evaluates
inside the kernel). -/
def sortBy (le : α → α → Bool) : List α → List α
  | [] => []
  | x :: xs => stableInsert le x (sortBy le xs)

/-- Serialisation loop body of `create_tree`: validate and append each sorted
entry as `mode ++ ' ' ++ name ++ '\0' ++ hash`. -/
def treeData : List TreeEntry → Res (List Nat)
  | [] => .ok []
  | e :: rest =>
    if e.hash.length ≠ 20 then .err .invalidData
    else if e.name = "" then .err .invalidData
    else
      match treeData rest with
      | .ok tail => .ok (strBytes e.mode ++ [32] ++ strBytes e.name ++ [0] ++ e.hash ++ tail)
      | r => r

/-- `create_tree` from `objects/tree.rs`: stable-sort entries by name, build
the payload, prepend `tree <len>\0`, hash, compress and write the object. -/
def create_tree (entries : List TreeEntry) (fs : FS) : Res String × FS :=
  let sorted := sortBy (fun a b => bytesLe (strBytes a.name) (strBytes b.name)) entries
  match treeData sorted with
  | .ok data =>
    let header := "tree " ++ toString data.length ++ String.mk ['\x00']
    let full := strBytes header ++ data
    let hashStr := hash_to_hex (compute_sha1 full)
    let dirPath := ".xit/objects/" ++ String.mk (hashStr.data.take 2)
    let path := dirPath ++ "/" ++ String.mk (hashStr.data.drop 2)
    (.ok hashStr, ((fs.addDir dirPath).write path (compress_zlib full)))
  | .err e => (.err e, fs)
  | .panicked => (.panicked, fs)
  | .outOfFuel => (.outOfFuel, fs)

/-- `create_commit` from `objects/commit.rs`: validate the fields, build the
text payload, prepend `commit <len>\0`, hash, compress and write. -/
def create_commit (tree_hash : String) (parent_hash : Option String)
    (author committer message : String) (fs : FS) : Res String × FS :=
  if tree_hash.length ≠ 40 then (.err .invalidData, fs)
  else if (match parent_hash with
           | some p => decide (p.length ≠ 40)
           | none => false) then (.err .invalidData, fs)
  else if author = "" then (.err .invalidData, fs)
  else if committer = "" then (.err .invalidData, fs)
  else if message = "" then (.err .invalidData, fs)
  else
    let content := "tree " ++ tree_hash ++ "\n"
      ++ (match parent_hash with
          | some p => "parent " ++ p ++ "\n"
          | none => "")
      ++ "author " ++ author ++ "\n"
      ++ "committer " ++ committer ++ "\n"
      ++ "\n" ++ message ++ "\n"
    let header := "commit " ++ toString (strBytes content).length ++ String.mk ['\x00']
    let data := strBytes header ++ strBytes content
    let hashStr := hash_to_hex (compute_sha1 data)
    let dirPath := ".xit/objects/" ++ String.mk (hashStr.data.take 2)
    let path := dirPath ++ "/" ++ String.mk (hashStr.data.drop 2)
    (.ok hashStr, ((fs.addDir dirPath).write path (compress_zlib data)))

/-- Parent directory of a path (argument of `create_dir_all` in
`update_reference`). -/
def parentDir (p : String) : String :=
  String.mk (joinSlash ((splitOnChar '/' p.data).dropLast))
where
  joinSlash : List (List Char) → List Char
    | [] => []
    | [x] => x
    | x :: y :: rest => x ++ '/' :: joinSlash (y :: rest)

/-- `update_reference` from `objects/update.rs`: validate, require the
`.xit` directory, then write `<commit_hash>\n` — to `".git/" ++ ref_path`. -/
def update_reference (ref_path commit_hash : String) (fs : FS) : Res Unit × FS :=
  if ref_path = "" then (.err .invalidInput, fs)
  else if commit_hash.length ≠ 40 then (.err .invalidData, fs)
  else if ¬ commit_hash.data.all isAsciiHexdigit then (.err .invalidData, fs)
  else if ¬ fs.pathExists ".xit" then (.err .notFound, fs)
  else
    let path := ".git/" ++ ref_path
    let fs1 := fs.addDir (parentDir path)
    (.ok (), fs1.write path (strBytes (commit_hash ++ "\n")))

/-- `update_branch` from `objects/update.rs`: name validation, then
`update_reference ("refs/heads/" ++ name)`. -/
def update_branch (branch_name commit_hash : String) (fs : FS) : Res Unit × FS :=
  let invalid_chars : List Char := ['/', '\\', ':', '*', '?', '"', '<', '>', '|', ' ']
  if branch_name = "" then (.err .invalidInput, fs)
  else if branch_name.data.any (fun c => invalid_chars.contains c) then
    (.err .invalidInput, fs)
  else if ["HEAD", "ORIGIN_HEAD", "FETCH_HEAD", "MERGE_HEAD"].contains branch_name then
    (.err .invalidInput, fs)
  else update_reference ("refs/heads/" ++ branch_name) commit_hash fs

/-- `create_branch` from `objects/update.rs`: the already-exists check is
made at `".xit/" ++ ref_path`, then `update_branch` performs the write. -/
def create_branch (branch_name commit_hash : String) (fs : FS) : Res Unit × FS :=
  let full_path := ".xit/refs/heads/" ++ branch_name
  if fs.pathExists full_path then (.err .alreadyExists, fs)
  else update_branch branch_name commit_hash fs

/-- `get_head_ref_path` from `repository/refs.rs`: read `.xit/HEAD`, trim,
and return the last whitespace-separated token (`unwrap_or("")`). -/
def get_head_ref_path (fs : FS) : Res String :=
  match fs.readStr ".xit/HEAD" with
  | none => .err .notFound
  | some s => .ok (String.mk (((wsTokens (rustTrim s.data)).getLast?).getD []))

/-- `get_commit_hash` from `repository/refs.rs`: read
`".xit/" ++ ref_path` and trim. -/
def get_commit_hash (ref_path : String) (fs : FS) : Res String :=
  if ref_path = "" then .err .notFound
  else
    match fs.readStr (".xit/" ++ ref_path) with
    | none => .err .notFound
    | some s => .ok (String.mk (rustTrim s.data))

/-- `HashMap::insert` on the association-list representation: replace the
binding of an existing key, else append. -/
def alInsert (l : List (String × String)) (k v : String) : List (String × String) :=
  if l.any (fun e => e.1 = k) then
    l.map (fun e => if e.1 = k then (k, v) else e)
  else l ++ [(k, v)]

/-- `read_index` from `repository/index.rs`: each line `"<hash> <path>"`
becomes a binding `path ↦ hash`; lines without a space are skipped; a later
line for the same path overwrites the earlier one. -/
def read_index (content : String) : List (String × String) :=
  (rustLines content).foldl
    (fun acc line =>
      match splitn2 ' ' line with
      | [h, p] => alInsert acc p h
      | _ => acc)
    []

/-- User identity from `repository/config.rs`. -/
structure UserConfig where
  name : String
  email : String
  deriving DecidableEq, Repr

/-- `read_user_from_path` from `repository/config.rs`: line-by-line INI
parser looking for `name`/`email` inside the `[user]` section. -/
def read_user_from_path (fs : FS) (path : String) : Option UserConfig :=
  match fs.readStr path with
  | none => none
  | some content =>
    let step := fun (st : Bool × Option String × Option String) (raw : String) =>
      let (inUser, nm, em) := st
      let line := String.mk (rustTrim raw.data)
      if line = "" then (inUser, nm, em)
      else if line = "[user]" then (true, nm, em)
      else if line.data.head? = some '[' then (false, nm, em)
      else if inUser then
        match (splitn2 '=' line).map (fun s => String.mk (rustTrim s.data)) with
        | [k, v] =>
          if k = "name" then (inUser, some v, em)
          else if k = "email" then (inUser, nm, some v)
          else (inUser, nm, em)
        | _ => (inUser, nm, em)
      else (inUser, nm, em)
    match (rustLines content).foldl step (false, none, none) with
    | (_, some n, some e) => some ⟨n, e⟩
    | _ => none

/-- `get_user_config` from `repository/config.rs`: local `.xit/config` first,
then `$HOME/.xit/config`; missing HOME is a `NotFound` error of its own. -/
def get_user_config (fs : FS) : Res UserConfig :=
  match read_user_from_path fs ".xit/config" with
  | some c => .ok c
  | none =>
    match fs.home with
    | none => .err .notFound
    | some h =>
      match read_user_from_path fs (h ++ "/.xit/config") with
      | some c => .ok c
      | none => .err .notFound

/-- `create_tree_from_index` from `repository/commit.rs`: decode each index
hash with `hex_to_bytes` (invalid hex → `InvalidData`) and build one flat
`100644` blob entry per staged path, then `create_tree`. -/
def create_tree_from_index (index : List (String × String)) (fs : FS) :
    Res String × FS :=
  let rec build : List (String × String) → Res (List TreeEntry)
    | [] => .ok []
    | (path, hashHex) :: rest =>
      match hex_to_bytes hashHex.data with
      | .ok bytes =>
        match build rest with
        | .ok es => .ok (⟨"100644", "blob", bytes, path⟩ :: es)
        | r => r
      | .err _ => .err .invalidData
      | .panicked => .panicked
      | .outOfFuel => .outOfFuel
  match build index with
  | .ok entries => create_tree entries fs
  | .err e => (.err e, fs)
  | .panicked => (.panicked, fs)
  | .outOfFuel => (.outOfFuel, fs)

/-- `commit` from `repository/commit.rs`, the full orchestration: index
check, tree build, parent lookup, identity lookup, commit object, reference
update, index removal.  The returned `FS` is the state at whatever point the
flow stopped. -/
def commit (message : String) (fs : FS) : Res Unit × FS :=
  match fs.files ".xit/index" with
  | none => (.err .notFound, fs)
  | some bytes =>
    let index_entries := read_index (ofBytes bytes)
    if index_entries.isEmpty then (.ok (), fs)
    else
      match create_tree_from_index index_entries fs with
      | (.ok tree_hash, fs1) =>
        match get_head_ref_path fs1 with
        | .ok head_ref_path =>
          let parent_hash := (get_commit_hash head_ref_path fs1).toOption
          match get_user_config fs1 with
          | .ok uc =>
            let author := uc.name ++ " <" ++ uc.email ++ ">"
            match create_commit tree_hash parent_hash author author message fs1 with
            | (.ok new_commit_hash, fs2) =>
              match update_reference head_ref_path new_commit_hash fs2 with
              | (.ok _, fs3) =>
                match fs3.removeFile ".xit/index" with
                | .ok fs4 => (.ok (), fs4)
                | .err e => (.err e, fs3)
                | .panicked => (.panicked, fs3)
                | .outOfFuel => (.outOfFuel, fs3)
              | (.err e, fs3) => (.err e, fs3)
              | (.panicked, fs3) => (.panicked, fs3)
              | (.outOfFuel, fs3) => (.outOfFuel, fs3)
            | (.err e, fs2) => (.err e, fs2)
            | (.panicked, fs2) => (.panicked, fs2)
            | (.outOfFuel, fs2) => (.outOfFuel, fs2)
          | .err e => (.err e, fs1)
          | .panicked => (.panicked, fs1)
          | .outOfFuel => (.outOfFuel, fs1)
        | .err e => (.err e, fs1)
        | .panicked => (.panicked, fs1)
        | .outOfFuel => (.outOfFuel, fs1)
      | (.err e, fs1) => (.err e, fs1)
      | (.panicked, fs1) => (.panicked, fs1)
      | (.outOfFuel, fs1) => (.outOfFuel, fs1)

/-- `read_object` from `repository/utils.rs`: open the fan-out path (slicing
`&hash[..2]` panics when the address has fewer than two characters),
decompress, split at the first NUL, and require a two-token header. -/
def read_object (fs : FS) (hash : String) : Res (String × List Nat) :=
  if hash.data.length < 2 then .panicked
  else
    match fs.files (objectPath hash) with
    | none => .err .notFound
    | some fileBytes =>
      let buffer := fileBytes  -- zlib decompression, inverse of `compress_zlib`
      match buffer.findIdx? (· = 0) with
      | none => .err .invalidData
      | some nullPos =>
        let header := ofBytes (buffer.take nullPos)
        let content := buffer.drop (nullPos + 1)
        match wsTokens header.data with
        | [t1, _] => .ok (String.mk t1, content)
        | _ => .err .invalidData

/-- The `files.insert` of `list_files_recursive` on the association list. -/
def filesInsert (l : List (String × String)) (k v : String) :
    List (String × String) := alInsert l k v

/-- `?`-propagation of the recursive call inside the entry loop: continue
with the accumulated map on success, return any failure unchanged. -/
def continueWalk (r : Res (List (String × String)))
    (cont : List (String × String) → Res (List (String × String))) :
    Res (List (String × String)) :=
  match r with
  | .ok files1 => cont files1
  | .err e => .err e
  | .panicked => .panicked
  | .outOfFuel => .outOfFuel

/-- The entry-scanning `while` loop of `list_files_recursive`
(`objects/read.rs` lines 47–80), on the remaining buffer, with the descent
into a sub-tree supplied as `descend`.  Slices the source takes unguarded
(`content[space_pos+1..null_pos]` and `content[null_pos+1..null_pos+21]`)
yield `Res.panicked` exactly when Rust would panic.  `k` is a structural
meter for the loop itself: every iteration consumes at least 21 bytes of
`content`, so a call with `k = content.length + 1` never reaches `k = 0`
(the `0` case is dead code). -/
def walkEntriesGen
    (descend : String → String → List (String × String) → Res (List (String × String))) :
    Nat → List Nat → String → List (String × String) → Res (List (String × String))
  | 0, _, _, _ => .outOfFuel
  | k + 1, content, current_path, files =>
    if content.isEmpty then .ok files
    else
      match content.findIdx? (· = 32) with
      | none => .err .invalidData
      | some spacePos =>
        match content.findIdx? (· = 0) with
        | none => .err .invalidData
        | some nullPos =>
          if spacePos + 1 > nullPos then .panicked
          else if nullPos + 21 > content.length then .panicked
          else
            let name := ofBytes ((content.take nullPos).drop (spacePos + 1))
            let hash_hex := hash_to_hex ((content.take (nullPos + 21)).drop (nullPos + 1))
            let path := if current_path = "" then name else current_path ++ "/" ++ name
            if [49, 48, 48].isPrefixOf (content.take spacePos) then
              walkEntriesGen descend k (content.drop (nullPos + 21)) current_path
                (filesInsert files path hash_hex)
            else
              continueWalk (descend hash_hex path files) fun files1 =>
                walkEntriesGen descend k (content.drop (nullPos + 21)) current_path files1

/-- `list_files_recursive` from `objects/read.rs`, interpreted with explicit
fuel: the source recurses into sub-trees with no depth or visited-set bound,
so the descent is metered by `fuel` and `Res.outOfFuel` marks a run that is
still descending when the meter runs out.  One unit of fuel is one level of
tree recursion. -/
def walkTree : Nat → FS → String → String → List (String × String) →
    Res (List (String × String))
  | 0, _, _, _, _ => .outOfFuel
  | n + 1, fs, tree_hash, current_path, files =>
    match read_object fs tree_hash with
    | .ok (obj_type, content) =>
      if obj_type ≠ "tree" then .err .invalidData
      else walkEntriesGen (walkTree n fs) (content.length + 1) content current_path files
    | .err e => .err e
    | .panicked => .panicked
    | .outOfFuel => .outOfFuel

/-- `list_files_in_tree` from `objects/read.rs`, at a given recursion
budget. -/
def list_files_in_tree (fuel : Nat) (fs : FS) (tree_hash : String) :
    Res (List (String × String)) :=
  walkTree fuel fs tree_hash "" []

/-- `is_ignored` from `repository/status.rs`: a path is ignored when any of
its components equals an ignore pattern. -/
def is_ignored (path : String) (patterns : List String) : Bool :=
  (splitOnChar '/' path.data).any (fun comp => patterns.contains (String.mk comp))

/-- The always-present ignore patterns of `read_ignore_file`
(`.xit`, `.git`, `target`). -/
def baseIgnorePatterns : List String := [".xit", ".git", "target"]

/-- Rust `str::replace("\r\n", "\n")`: left-to-right, non-overlapping. -/
def replaceCRLF : List Char → List Char
  | [] => []
  | '\x0d' :: '\x0a' :: rest => '\x0a' :: replaceCRLF rest
  | c :: rest => c :: replaceCRLF rest

/-- Working-directory content hash computed by `get_unstaged_and_untracked`
(`status.rs` lines 120–124): lossy UTF-8, CRLF→LF normalisation, then a bare
SHA-1 of the normalised bytes — no `blob <len>\0` header. -/
def wd_hash_of (content : List Nat) : String :=
  hash_to_hex (compute_sha1 (strBytes (String.mk (replaceCRLF (ofBytes content).data))))

/-- Content hash a file is staged under (`add` → `create_blob` in
`repository/add.rs`): SHA-1 of `blob <len>\0` + the raw, unnormalised
bytes. -/
def staged_hash_of (content : List Nat) : String :=
  (create_blob content ⟨fun _ => none, fun _ => false, none⟩).hash

/-- `get_unstaged_and_untracked` from `repository/status.rs`, with the
walkdir enumeration supplied as the list `working` of (path, bytes) pairs in
visit order: ignored entries are pruned, tracked files are compared by
`wd_hash_of`, untracked files collected, then index entries missing from the
working set are marked deleted. -/
def get_unstaged_and_untracked (index_entries : List (String × String))
    (working : List (String × List Nat)) (patterns : List String) :
    List (String × String) × List String :=
  let visible := working.filter (fun e => ¬ is_ignored e.1 patterns)
  let start : List (String × String) × List String := ([], [])
  let scanned := visible.foldl
    (fun (acc : List (String × String) × List String) e =>
      match index_entries.lookup e.1 with
      | some index_hash =>
        if wd_hash_of e.2 ≠ index_hash then (alInsert acc.1 e.1 "modified", acc.2)
        else acc
      | none => (acc.1, acc.2 ++ [e.1]))
    start
  let workingPaths := visible.map (·.1)
  index_entries.foldl
    (fun acc e =>
      if ¬ workingPaths.contains e.1 then (alInsert acc.1 e.1 "deleted", acc.2)
      else acc)
    scanned

/-- The write-back loop of `update_index` (`repository/add.rs` lines 70–78):
`File::create` truncates the index file, then one `writeln!` per map entry in
the map's iteration order, format `"<hash> <path>"`. -/
def persistIndex (entries : List (String × String)) (fs : FS) : FS :=
  fs.write ".xit/index" (strBytes (indexFileText entries))
where
  /-- The text the loop emits for `entries` in iteration order. -/
  indexFileText : List (String × String) → String
    | [] => ""
    | (path, hash) :: rest => hash ++ " " ++ path ++ "\n" ++ indexFileText rest

/-! Concrete repository states used by the theorems below. -/

/-- A repository with only the `.xit` directory: no index, no refs, no
objects. -/
def emptyRepoFS : FS :=
  { files := fun _ => none, dirs := fun d => d = ".xit", home := none }

/-- A 40-character hex address (all `a`). -/
def addrA : String := String.mk (List.replicate 40 'a')

/-- A 40-character hex address (all `b`). -/
def addrB : String := String.mk (List.replicate 40 'b')

/-- A 40-character hex address (all `c`). -/
def addrC : String := String.mk (List.replicate 40 'c')

/-- A 40-character hex address (all zeros). -/
def addrZero : String := String.mk (List.replicate 40 '0')

/-- A ready-to-commit repository: symbolic HEAD at `refs/heads/main`, a
one-entry index staging `a.txt` at `addrZero`, and a local config with a
user identity.  No commit exists yet. -/
def repoC1FS : FS :=
  { files := fun p =>
      if p = ".xit/HEAD" then some (strBytes "ref: refs/heads/main\n")
      else if p = ".xit/index" then
        some (strBytes (addrZero ++ " a.txt\n"))
      else if p = ".xit/config" then
        some (strBytes "[user]\n    name = A\n    email = a@b.c\n")
      else none,
    dirs := fun d => d = ".xit",
    home := none }

/-- Stored tree payload with no space in its single entry. -/
def treeNoSpaceObj : List Nat := strBytes "tree 9\x00" ++ strBytes "100644abc"

/-- Stored tree payload with a space but no NUL. -/
def treeNoNulObj : List Nat := strBytes "tree 10\x00" ++ strBytes "100644 abc"

/-- Stored tree payload whose entry has only 3 bytes after the NUL where the
20-byte child address should be. -/
def treeShortHashObj : List Nat :=
  strBytes "tree 12\x00" ++ strBytes "100644 a\x00" ++ [1, 2, 3]

/-- Object store holding the three malformed trees above at `addrA`,
`addrB`, `addrC`. -/
def malformedTreesFS : FS :=
  { files := fun p =>
      if p = objectPath addrA then some treeNoSpaceObj
      else if p = objectPath addrB then some treeNoNulObj
      else if p = objectPath addrC then some treeShortHashObj
      else none,
    dirs := fun _ => false, home := none }

/-- A self-referential tree object: the single entry `40000 d` carries the
20-zero-byte address of the tree itself, i.e. a one-node cycle in the object
graph. -/
def cyclicTreeObj : List Nat :=
  strBytes "tree 28\x00" ++ strBytes "40000 d\x00" ++ List.replicate 20 0

/-- Object store containing only the self-referential tree at `addrZero`. -/
def cyclicTreeFS : FS :=
  { files := fun p => if p = objectPath addrZero then some cyclicTreeObj else none,
    dirs := fun _ => false, home := none }

/-- On the cyclic store, the path argument the walk passes to the next level
of recursion (`d`, `d/d`, `d/d/d`, …). -/
def cyclicChildPath (current_path : String) : String :=
  if current_path = "" then "d" else current_path ++ "/" ++ "d"

/-- A filesystem whose `.xit/HEAD` holds the given content. -/
def headFS (content : String) : FS :=
  { files := fun p => if p = ".xit/HEAD" then some (strBytes content) else none,
    dirs := fun _ => false, home := none }

/-- File bytes containing a CRLF sequence: `"a\r\nb"`. -/
def crlfBytes : List Nat := strBytes "a\x0d\x0ab"

/-- A repository whose index stages `a.txt` (valid hash), but with no HEAD
file, so the commit flow fails after the index has been read. -/
def noHeadRepoFS : FS :=
  { files := fun p =>
      if p = ".xit/index" then some (strBytes (addrZero ++ " a.txt\n"))
      else none,
    dirs := fun d => d = ".xit",
    home := none }

/-- A repository whose index file exists but is empty. -/
def emptyIndexRepoFS : FS :=
  { files := fun p => if p = ".xit/index" then some [] else none,
    dirs := fun d => d = ".xit", home := none }

/-- A repository on which the reference update itself fails: HEAD, a
one-entry index and a user config are present, but the `.xit` directory
entry is gone (`update_reference`'s `Path::new(".xit").exists()` check at
`update.rs:33` fails, the model's only trigger for its `NotFound`), so
`commit` builds and writes the tree and commit objects and then errs at
step 5 — the spec's own partial-failure example. -/
def refFailRepoFS : FS :=
  { files := fun p =>
      if p = ".xit/HEAD" then some (strBytes "ref: refs/heads/main\n")
      else if p = ".xit/index" then
        some (strBytes (addrZero ++ " a.txt\n"))
      else if p = ".xit/config" then
        some (strBytes "[user]\n    name = A\n    email = a@b.c\n")
      else none,
    dirs := fun _ => false,
    home := none }

/-- Paths of the lines of the index file of `fs`, in file order: the part
after the first space of each line. -/
def indexLinePaths (fs : FS) : List String :=
  (rustLines (ofBytes ((fs.files ".xit/index").getD []))).map
    fun l => ((splitn2 ' ' l).getLast?).getD ""

/-- Absence of `'\n'`/`'\r'` in a string (an index entry that survives the
line format). -/
def lineSafe (s : String) : Bool :=
  s.data.all fun c => c ≠ '\x0a' ∧ c ≠ '\x0d'

set_option maxRecDepth 40000

/-- **C1** (code bug).  On a ready-to-commit repository the commit succeeds
and clears the index, but the branch reference that HEAD designates
(`refs/heads/main`) does **not** resolve to the new commit:
`update_reference` writes the new address under the `.git/` root while
`get_commit_hash` reads under the `.xit/` root, so resolution fails with
`NotFound` even though the new commit address was written (to
`.git/refs/heads/main`). -/
theorem commit_updates_git_root_but_resolves_xit_root :
    get_head_ref_path repoC1FS = .ok "refs/heads/main"
    ∧ (commit "msg" repoC1FS).1 = .ok ()
    ∧ (commit "msg" repoC1FS).2.files ".xit/index" = none
    ∧ ((commit "msg" repoC1FS).2.files ".git/refs/heads/main").isSome = true
    ∧ get_commit_hash "refs/heads/main" (commit "msg" repoC1FS).2 = .err .notFound := by
  decide

/-- **C4** (code bug).  A tree entry missing the space or the NUL does fail
with the corrupt-tree error (`InvalidData`), but an entry with fewer than 20
bytes after the NUL makes the decoder panic (out-of-range slice
`content[null_pos+1..null_pos+21]`) instead of returning the error. -/
theorem tree_decode_short_hash_panics :
    walkTree 5 malformedTreesFS addrA "" [] = .err .invalidData
    ∧ walkTree 5 malformedTreesFS addrB "" [] = .err .invalidData
    ∧ walkTree 5 malformedTreesFS addrC "" [] = .panicked := by
  decide

/-- **C5** (code bug).  Calling `create_branch` twice in succession with the
same name does not fail: the already-exists check looks at
`.xit/refs/heads/<name>` while `update_reference` wrote the pointer to
`.git/refs/heads/<name>`, so the second call sees no pointer and succeeds
instead of failing with `AlreadyExists`. -/
theorem create_branch_twice_both_succeed :
    (create_branch "feature" addrA emptyRepoFS).1 = .ok ()
    ∧ (((create_branch "feature" addrA emptyRepoFS).2.files
        ".git/refs/heads/feature")).isSome = true
    ∧ ((create_branch "feature" addrA emptyRepoFS).2.files
        ".xit/refs/heads/feature") = none
    ∧ (create_branch "feature" addrA
        (create_branch "feature" addrA emptyRepoFS).2).1 = .ok () := by
  decide

/-- **C8** (code bug).  A file staged with bytes `"a\r\nb"` and left
byte-for-byte unchanged on disk is reported as unstaged `modified`: the
staged hash covers `blob <len>\0` plus the raw bytes, while the status-time
hash covers the CRLF-normalised bytes without any header, so the two hashes
differ for identical on-disk content. -/
theorem status_rehash_differs_from_staged_hash :
    staged_hash_of crlfBytes ≠ wd_hash_of crlfBytes
    ∧ (get_unstaged_and_untracked [("a.txt", staged_hash_of crlfBytes)]
        [("a.txt", crlfBytes)] baseIgnorePatterns).1 = [("a.txt", "modified")] := by
  decide

/-- **C2** (counterexample).  After a first `create_blob` the object file
exists at the derived path, yet a second `create_blob` of the same content
still performs a write to that very path (the source's
`std::fs::write(path, compressed_data)` is unconditional): the claim's
"written only if absent, and an existing file at that path is not
rewritten" is false. -/
theorem create_blob_second_write_unconditional :
    ((create_blob (strBytes "hi") emptyRepoFS).fs.files
      (objectPath (create_blob (strBytes "hi") emptyRepoFS).hash)).isSome = true
    ∧ (create_blob (strBytes "hi") (create_blob (strBytes "hi") emptyRepoFS).fs).writes
      = [objectPath (create_blob (strBytes "hi") emptyRepoFS).hash] := by
  decide

/-- **C7** (counterexample).  A HEAD file holding a raw 40-hex commit
address (detached HEAD) is not reported as a corrupt-reference error:
`get_head_ref_path` returns the address itself as the "reference path". -/
theorem get_head_ref_path_detached_returns_hash :
    get_head_ref_path (headFS (addrA ++ "\n")) = .ok addrA := by
  decide

/-- **C6** (counterexample).  The index write-back emits the map in the
`HashMap`'s iteration order: two iteration orders of the same two-entry map
(they are permutations of one another) produce different file contents, and
the order `[b.txt, a.txt]` produces lines not sorted by path — so the
written content is neither sorted nor a function of the map alone. -/
theorem persistIndex_order_dependent_unsorted :
    List.Perm [("b.txt", addrB), ("a.txt", addrA)] [("a.txt", addrA), ("b.txt", addrB)]
    ∧ (persistIndex [("b.txt", addrB), ("a.txt", addrA)] emptyRepoFS).files ".xit/index"
      ≠ (persistIndex [("a.txt", addrA), ("b.txt", addrB)] emptyRepoFS).files ".xit/index"
    ∧ indexLinePaths (persistIndex [("b.txt", addrB), ("a.txt", addrA)] emptyRepoFS)
      = ["b.txt", "a.txt"]
    ∧ bytesLe (strBytes "b.txt") (strBytes "a.txt") = false := by
  decide

/-- **C2** (amended).  Writing the same content twice produces the same
address and leaves the store with exactly the same single object file (the
filesystem after the second call equals the filesystem after the first),
but the second call still unconditionally rewrites the object file at the
derived path with the identical bytes — the write is not guarded on
absence. -/
theorem create_blob_rewrite_same_address_same_fs (content : List Nat) (fs : FS) :
    (create_blob content (create_blob content fs).fs).hash = (create_blob content fs).hash
    ∧ (create_blob content (create_blob content fs).fs).writes
      = [objectPath (create_blob content fs).hash]
    ∧ (create_blob content (create_blob content fs).fs).fs = (create_blob content fs).fs := by
  refine ⟨rfl, rfl, ?_⟩
  simp only [create_blob, FS.write, FS.addDir]
  congr 1
  · funext q
    by_cases hq : q = ".xit/objects/" ++
        String.mk ((hash_to_hex (compute_sha1 (strBytes ("blob " ++ toString content.length
          ++ String.mk ['\x00']) ++ content))).data.take 2) ++ "/" ++
        String.mk ((hash_to_hex (compute_sha1 (strBytes ("blob " ++ toString content.length
          ++ String.mk ['\x00']) ++ content))).data.drop 2) <;>
      simp [hq]
  · funext q
    by_cases hq : q = ".xit/objects/" ++
        String.mk ((hash_to_hex (compute_sha1 (strBytes ("blob " ++ toString content.length
          ++ String.mk ['\x00']) ++ content))).data.take 2) <;>
      simp [hq]

/-- **C3** (code bug).  On the object store holding the one-node cycle
(`cyclicTreeFS`), the recursive tree flattening never terminates: for every
recursion budget, and from every starting path and accumulator, the
interpreter of `list_files_recursive` is still descending when the budget
runs out.  The source has no visited-set or depth bound and never reaches a
`CorruptTree` failure on this input. -/
theorem walkTree_cyclic_out_of_fuel (fuel : Nat) :
    ∀ (current_path : String) (files : List (String × String)),
      walkTree fuel cyclicTreeFS addrZero current_path files = .outOfFuel := by
  induction fuel with
  | zero => intro p f; rfl
  | succ n ih =>
    intro p f
    have hstep : walkTree (n + 1) cyclicTreeFS addrZero p f =
        continueWalk (walkTree n cyclicTreeFS addrZero (cyclicChildPath p) f)
          (fun f1 => walkEntriesGen (walkTree n cyclicTreeFS) 28 [] p f1) := rfl
    rw [hstep, ih (cyclicChildPath p) f]
    rfl

/-- **C10** (confirmed).  The two empty-staging cases are asymmetric: a
missing index file fails with `NotFound` before any mutation, while an index
file that parses to zero entries returns success with the state completely
unchanged (no object written, no reference updated, index not deleted). -/
theorem commit_empty_index_asymmetry (message : String) (fs : FS) :
    (fs.files ".xit/index" = none → commit message fs = (.err .notFound, fs))
    ∧ (∀ b, fs.files ".xit/index" = some b → read_index (ofBytes b) = [] →
        commit message fs = (.ok (), fs)) := by
  constructor
  · intro h
    unfold commit
    rw [h]
  · intro b hb he
    unfold commit
    rw [hb]
    simp [he]

/-- Witness for `commit_empty_index_asymmetry`: a repository without an
index file errs with `NotFound`, one with an empty index file succeeds
without mutating anything. -/
theorem commit_empty_index_asymmetry_witness :
    emptyRepoFS.files ".xit/index" = none
    ∧ commit "m" emptyRepoFS = (.err .notFound, emptyRepoFS)
    ∧ emptyIndexRepoFS.files ".xit/index" = some []
    ∧ read_index (ofBytes []) = []
    ∧ commit "m" emptyIndexRepoFS = (.ok (), emptyIndexRepoFS) :=
  ⟨rfl, (commit_empty_index_asymmetry "m" emptyRepoFS).1 rfl, rfl, rfl,
   (commit_empty_index_asymmetry "m" emptyIndexRepoFS).2 [] rfl rfl⟩

/-- Codepoint round-trip used when a file written from a string is read
back. -/
theorem ofBytes_strBytes (s : String) : ofBytes (strBytes s) = s := by
  have h : ∀ l : List Char, (l.map Char.toNat).map Char.ofNat = l := by
    intro l
    induction l with
    | nil => rfl
    | cons c t ih => simp [ih, Char.ofNat_toNat]
  unfold ofBytes strBytes
  rw [h]

/-- On an all-non-whitespace input the tokenizer yields the pending
accumulator joined with the rest as a single token. -/
theorem wsTokensAux_all_not_ws (p : List Char) :
    ∀ acc, p.all (fun c => !c.isWhitespace) = true → (p ≠ [] ∨ acc ≠ []) →
      wsTokensAux p acc = [acc.reverse ++ p] := by
  induction p with
  | nil =>
    intro acc _ hne
    have hacc : acc ≠ [] := by
      rcases hne with h | h
      · exact absurd rfl h
      · exact h
    simp [wsTokensAux, hacc]
  | cons c rest ih =>
    intro acc hall _
    simp only [List.all_cons, Bool.and_eq_true] at hall
    obtain ⟨hc, hrest⟩ := hall
    have hc' : c.isWhitespace = false := by simpa using hc
    simp only [wsTokensAux, hc', Bool.false_eq_true, if_false]
    rw [ih (c :: acc) hrest (Or.inr (by simp))]
    simp

/-- `dropWhile isWhitespace` is the identity on all-non-whitespace input. -/
theorem dropWhile_all_not_ws (l : List Char)
    (h : l.all (fun c => !c.isWhitespace) = true) :
    l.dropWhile Char.isWhitespace = l := by
  cases l with
  | nil => rfl
  | cons c t =>
    simp only [List.all_cons, Bool.and_eq_true] at h
    have hc : c.isWhitespace = false := by simpa using h.1
    simp [List.dropWhile, hc]

/-- `rustTrim` is the identity on all-non-whitespace input. -/
theorem rustTrim_all_not_ws (l : List Char)
    (h : l.all (fun c => !c.isWhitespace) = true) :
    rustTrim l = l := by
  unfold rustTrim
  rw [dropWhile_all_not_ws l h,
    dropWhile_all_not_ws l.reverse (by simpa using h),
    List.reverse_reverse]

/-- A reversed non-empty all-non-whitespace list shields any tail from
`dropWhile isWhitespace`. -/
theorem dropWhile_reverse_append (p t : List Char) (hne : p ≠ [])
    (hws : p.all (fun c => !c.isWhitespace) = true) :
    (p.reverse ++ t).dropWhile Char.isWhitespace = p.reverse ++ t := by
  rcases hr : p.reverse with _ | ⟨a, l⟩
  · exact absurd (List.reverse_eq_nil_iff.mp hr) hne
  · have ha : a ∈ p := by
      have : a ∈ p.reverse := by rw [hr]; exact List.mem_cons_self a l
      exact List.mem_reverse.mp this
    have haw : a.isWhitespace = false := by
      simpa using List.all_eq_true.mp hws a ha
    simp [List.cons_append, List.dropWhile, haw]

/-- Trimming the HEAD content `"ref: <token>\n"` keeps everything but the
trailing newline. -/
theorem rustTrim_ref_line (p : List Char) (hne : p ≠ [])
    (hws : p.all (fun c => !c.isWhitespace) = true) :
    rustTrim ('r' :: 'e' :: 'f' :: ':' :: ' ' :: (p ++ ['\x0a'])) =
      'r' :: 'e' :: 'f' :: ':' :: ' ' :: p := by
  unfold rustTrim
  have h1 : ('r' :: 'e' :: 'f' :: ':' :: ' ' :: (p ++ ['\x0a'])).dropWhile
      Char.isWhitespace = 'r' :: 'e' :: 'f' :: ':' :: ' ' :: (p ++ ['\x0a']) := rfl
  rw [h1]
  have h2 : ('r' :: 'e' :: 'f' :: ':' :: ' ' :: (p ++ ['\x0a'])).reverse
      = '\x0a' :: (p.reverse ++ [' ', ':', 'f', 'e', 'r']) := by
    simp
  rw [h2]
  have h3 : ('\x0a' :: (p.reverse ++ [' ', ':', 'f', 'e', 'r'])).dropWhile
      Char.isWhitespace = (p.reverse ++ [' ', ':', 'f', 'e', 'r']).dropWhile
      Char.isWhitespace := rfl
  rw [h3, dropWhile_reverse_append p _ hne hws]
  simp

/-- **C7** (amended).  `get_head_ref_path` returns the last
whitespace-separated token of the trimmed HEAD content: for the symbolic
form `"ref: <path>\n"` that is the reference path after the `"ref: "`
prefix, and for a HEAD holding a raw whitespace-free token (e.g. a 40-hex
commit address, detached HEAD) it is that token itself, returned as a
"reference path" rather than reported as a corrupt-reference error. -/
theorem get_head_ref_path_last_token (p : List Char) (hne : p ≠ [])
    (hws : p.all (fun c => !c.isWhitespace) = true) :
    get_head_ref_path (headFS (String.mk
        ('r' :: 'e' :: 'f' :: ':' :: ' ' :: (p ++ ['\x0a'])))) = .ok (String.mk p)
    ∧ get_head_ref_path (headFS (String.mk p)) = .ok (String.mk p) := by
  constructor
  · show Res.ok (String.mk (((wsTokens (rustTrim (ofBytes (strBytes (String.mk
      ('r' :: 'e' :: 'f' :: ':' :: ' ' :: (p ++ ['\x0a']))))).data)).getLast?).getD []))
      = Res.ok (String.mk p)
    rw [ofBytes_strBytes]
    show Res.ok (String.mk (((wsTokens (rustTrim
      ('r' :: 'e' :: 'f' :: ':' :: ' ' :: (p ++ ['\x0a'])))).getLast?).getD []))
      = Res.ok (String.mk p)
    rw [rustTrim_ref_line p hne hws]
    show Res.ok (String.mk (((['r', 'e', 'f', ':'] ::
      wsTokensAux p []).getLast?).getD [])) = Res.ok (String.mk p)
    rw [wsTokensAux_all_not_ws p [] hws (Or.inl hne)]
    rfl
  · show Res.ok (String.mk (((wsTokens (rustTrim (ofBytes (strBytes
      (String.mk p))).data)).getLast?).getD [])) = Res.ok (String.mk p)
    rw [ofBytes_strBytes]
    show Res.ok (String.mk (((wsTokens (rustTrim p)).getLast?).getD []))
      = Res.ok (String.mk p)
    rw [rustTrim_all_not_ws p hws]
    show Res.ok (String.mk (((wsTokensAux p []).getLast?).getD []))
      = Res.ok (String.mk p)
    rw [wsTokensAux_all_not_ws p [] hws (Or.inl hne)]
    rfl

/-- Witness for `get_head_ref_path_last_token` at the token
`refs/heads/main`. -/
theorem get_head_ref_path_last_token_witness :
    "refs/heads/main".data ≠ []
    ∧ "refs/heads/main".data.all (fun c => !c.isWhitespace) = true
    ∧ get_head_ref_path (headFS (String.mk ('r' :: 'e' :: 'f' :: ':' :: ' ' ::
        ("refs/heads/main".data ++ ['\x0a'])))) = .ok (String.mk "refs/heads/main".data) :=
  ⟨by decide, by decide,
   (get_head_ref_path_last_token "refs/heads/main".data (by decide) (by decide)).1⟩

/-- Splitting at `sep` walks past a separator-free chunk in one piece. -/
theorem splitOnChar_go_no_sep (sep : Char) (l : List Char)
    (hl : l.all (fun c => c ≠ sep) = true) :
    ∀ acc t, splitOnChar.go sep (l ++ sep :: t) acc
      = (acc.reverse ++ l) :: splitOnChar.go sep t [] := by
  induction l with
  | nil => intro acc t; simp [splitOnChar.go]
  | cons c cs ih =>
    intro acc t
    simp only [List.all_cons, Bool.and_eq_true] at hl
    have hc : ¬ c = sep := by simpa using hl.1
    show splitOnChar.go sep (c :: (cs ++ sep :: t)) acc
      = (acc.reverse ++ c :: cs) :: splitOnChar.go sep t []
    simp only [splitOnChar.go, hc, if_false]
    rw [ih hl.2 (c :: acc) t]
    simp

/-- The index text persisted for `entries` splits at `'\n'` into exactly one
`"<hash> <path>"` piece per entry, in iteration order, plus the empty piece
after the final terminator. -/
theorem splitOnChar_indexFileText (entries : List (String × String))
    (h : entries.all (fun e => lineSafe e.1 && lineSafe e.2) = true) :
    splitOnChar '\x0a' (persistIndex.indexFileText entries).data
      = entries.map (fun e => (e.2 ++ " " ++ e.1).data) ++ [[]] := by
  induction entries with
  | nil => rfl
  | cons e rest ih =>
    simp only [List.all_cons, Bool.and_eq_true] at h
    obtain ⟨⟨he1, he2⟩, hrest⟩ := h
    obtain ⟨p, hash⟩ := e
    have hline : ((hash ++ " " ++ p).data).all (fun c => c ≠ '\x0a') = true := by
      simp only [String.data_append, List.all_append, Bool.and_eq_true]
      refine ⟨⟨?_, by decide⟩, ?_⟩
      · simp only [lineSafe, List.all_eq_true, decide_eq_true_eq] at he2 ⊢
        intro c hc
        exact (he2 c hc).1
      · simp only [lineSafe, List.all_eq_true, decide_eq_true_eq] at he1 ⊢
        intro c hc
        exact (he1 c hc).1
    have hdata : (persistIndex.indexFileText ((p, hash) :: rest)).data
        = (hash ++ " " ++ p).data ++ '\x0a' :: (persistIndex.indexFileText rest).data := by
      show (hash ++ " " ++ p ++ "\x0a" ++ persistIndex.indexFileText rest).data = _
      simp [String.data_append]
    unfold splitOnChar
    rw [hdata, splitOnChar_go_no_sep '\x0a' _ hline]
    have := ih hrest
    unfold splitOnChar at this
    rw [this]
    simp

/-- **C6** (amended).  Persisting the staging map writes one line per entry
in the form `"<hexAddress> <path>"`, fully overwriting the previous index
file (no other path changes, and the result is independent of the previous
filesystem content) — but the lines appear in the map's iteration order,
which is arbitrary for a `HashMap`, not sorted by path. -/
theorem persistIndex_writes_lines_in_iteration_order
    (entries : List (String × String)) (fs fs' : FS)
    (h : entries.all (fun e => lineSafe e.1 && lineSafe e.2) = true) :
    (∀ p, p ≠ ".xit/index" → (persistIndex entries fs).files p = fs.files p)
    ∧ (persistIndex entries fs).files ".xit/index"
      = (persistIndex entries fs').files ".xit/index"
    ∧ splitOnChar '\x0a'
        (ofBytes (((persistIndex entries fs).files ".xit/index").getD [])).data
      = entries.map (fun e => (e.2 ++ " " ++ e.1).data) ++ [[]] := by
  refine ⟨?_, ?_, ?_⟩
  · intro p hp
    simp [persistIndex, FS.write, hp]
  · simp [persistIndex, FS.write]
  · have hfile : ((persistIndex entries fs).files ".xit/index").getD []
        = strBytes (persistIndex.indexFileText entries) := by
      simp [persistIndex, FS.write]
    rw [hfile, ofBytes_strBytes]
    exact splitOnChar_indexFileText entries h

/-- Witness for `persistIndex_writes_lines_in_iteration_order` at a
two-entry map. -/
theorem persistIndex_writes_lines_witness :
    ([("a.txt", addrA), ("b.txt", addrB)].all
      (fun e => lineSafe e.1 && lineSafe e.2)) = true
    ∧ splitOnChar '\x0a'
        (ofBytes (((persistIndex [("a.txt", addrA), ("b.txt", addrB)]
          emptyRepoFS).files ".xit/index").getD [])).data
      = [("a.txt", addrA), ("b.txt", addrB)].map (fun e => (e.2 ++ " " ++ e.1).data) ++ [[]]
    ∧ (persistIndex [("a.txt", addrA), ("b.txt", addrB)] emptyRepoFS).files ".xit/HEAD"
      = emptyRepoFS.files ".xit/HEAD" :=
  ⟨by decide,
   (persistIndex_writes_lines_in_iteration_order _ emptyRepoFS emptyRepoFS (by decide)).2.2,
   (persistIndex_writes_lines_in_iteration_order _ emptyRepoFS emptyRepoFS
     (by decide)).1 ".xit/HEAD" (by decide)⟩

/-- A write at another path leaves a file unchanged. -/
theorem files_write_other (fs : FS) (p : String) (v : List Nat) (q : String)
    (h : q ≠ p) : (fs.write p v).files q = fs.files q := by
  simp [FS.write, h]

/-- A write never deletes a file. -/
theorem files_write_isSome (fs : FS) (p : String) (v : List Nat) (q : String)
    (h : (fs.files q).isSome = true) : ((fs.write p v).files q).isSome = true := by
  by_cases hq : q = p <;> simp [FS.write, hq, h]

/-- Object files live under `.xit/objects/`, never at the index path. -/
theorem objects_path_ne_index (a b : String) :
    ".xit/objects/" ++ a ++ "/" ++ b ≠ ".xit/index" := by
  intro hEq
  have h := congrArg String.data hEq
  simp [String.data_append] at h

/-- Reference files are written under `.git/`, never at the index path. -/
theorem git_path_ne_index (r : String) : ".git/" ++ r ≠ ".xit/index" := by
  intro hEq
  have h := congrArg String.data hEq
  simp [String.data_append] at h

/-- `create_tree` never touches the index file and never deletes a file. -/
theorem create_tree_preserves (es : List TreeEntry) (fs : FS) :
    (create_tree es fs).2.files ".xit/index" = fs.files ".xit/index"
    ∧ ∀ q, (fs.files q).isSome = true → ((create_tree es fs).2.files q).isSome = true := by
  simp only [create_tree]
  cases htd : treeData (sortBy (fun a b => bytesLe (strBytes a.name) (strBytes b.name)) es) with
  | ok data =>
    simp only [htd]
    exact ⟨files_write_other _ _ _ _ (Ne.symm (objects_path_ne_index _ _)),
           fun q hq => files_write_isSome _ _ _ _ hq⟩
  | err e => simp only [htd]; exact ⟨by simp, fun q hq => hq⟩
  | panicked => simp only [htd]; exact ⟨by simp, fun q hq => hq⟩
  | outOfFuel => simp only [htd]; exact ⟨by simp, fun q hq => hq⟩

/-- `create_tree_from_index` never touches the index file and never deletes
a file. -/
theorem create_tree_from_index_preserves (idx : List (String × String)) (fs : FS) :
    (create_tree_from_index idx fs).2.files ".xit/index" = fs.files ".xit/index"
    ∧ ∀ q, (fs.files q).isSome = true →
        ((create_tree_from_index idx fs).2.files q).isSome = true := by
  simp only [create_tree_from_index]
  cases hb : create_tree_from_index.build idx with
  | ok entries => simp only [hb]; exact create_tree_preserves entries fs
  | err e => simp only [hb]; exact ⟨by simp, fun q hq => hq⟩
  | panicked => simp only [hb]; exact ⟨by simp, fun q hq => hq⟩
  | outOfFuel => simp only [hb]; exact ⟨by simp, fun q hq => hq⟩

/-- `create_commit` never touches the index file and never deletes a
file. -/
theorem create_commit_preserves (th : String) (ph : Option String)
    (a c m : String) (fs : FS) :
    (create_commit th ph a c m fs).2.files ".xit/index" = fs.files ".xit/index"
    ∧ ∀ q, (fs.files q).isSome = true →
        ((create_commit th ph a c m fs).2.files q).isSome = true := by
  simp only [create_commit]
  split_ifs <;>
    first
      | exact ⟨rfl, fun q hq => hq⟩
      | exact ⟨files_write_other _ _ _ _ (Ne.symm (objects_path_ne_index _ _)),
               fun q hq => files_write_isSome _ _ _ _ hq⟩

/-- `update_reference` writes only under `.git/`: it never touches the index
file and never deletes a file. -/
theorem update_reference_preserves (r ch : String) (fs : FS) :
    (update_reference r ch fs).2.files ".xit/index" = fs.files ".xit/index"
    ∧ ∀ q, (fs.files q).isSome = true →
        ((update_reference r ch fs).2.files q).isSome = true := by
  simp only [update_reference]
  split_ifs <;>
    first
      | exact ⟨rfl, fun q hq => hq⟩
      | exact ⟨files_write_other _ _ _ _ (Ne.symm (git_path_ne_index _)),
               fun q hq => files_write_isSome _ _ _ _ hq⟩

/-- A successful `create_tree` leaves the tree object stored at its derived
path in the resulting state. -/
theorem create_tree_writes_object (es : List TreeEntry) (fs : FS)
    (th : String) (fs1 : FS) (hct : create_tree es fs = (.ok th, fs1)) :
    (fs1.files (objectPath th)).isSome = true := by
  simp only [create_tree] at hct
  cases htd : treeData (sortBy (fun a b => bytesLe (strBytes a.name) (strBytes b.name)) es) with
  | ok data =>
    simp only [htd, Prod.mk.injEq, Res.ok.injEq] at hct
    obtain ⟨hh, hfs⟩ := hct
    subst hh hfs
    simp [FS.write, FS.addDir, objectPath]
  | err e => simp only [htd] at hct; simp at hct
  | panicked => simp only [htd] at hct; simp at hct
  | outOfFuel => simp only [htd] at hct; simp at hct

/-- A successful `create_tree_from_index` leaves the tree object stored at
its derived path in the resulting state. -/
theorem create_tree_from_index_writes_object (idx : List (String × String))
    (fs : FS) (th : String) (fs1 : FS)
    (hct : create_tree_from_index idx fs = (.ok th, fs1)) :
    (fs1.files (objectPath th)).isSome = true := by
  simp only [create_tree_from_index] at hct
  cases hb : create_tree_from_index.build idx with
  | ok entries => simp only [hb] at hct; exact create_tree_writes_object entries fs th fs1 hct
  | err e => simp only [hb] at hct; simp at hct
  | panicked => simp only [hb] at hct; simp at hct
  | outOfFuel => simp only [hb] at hct; simp at hct

/-- A successful `create_commit` leaves the commit object stored at its
derived path in the resulting state. -/
theorem create_commit_writes_object (th : String) (ph : Option String)
    (a c m : String) (fs : FS) (nh : String) (fs2 : FS)
    (hcc : create_commit th ph a c m fs = (.ok nh, fs2)) :
    (fs2.files (objectPath nh)).isSome = true := by
  simp only [create_commit] at hcc
  split_ifs at hcc <;>
    (injection hcc with h1 h2
     first
       | exact Res.noConfusion h1
       | (injection h1 with h1'
          subst h1'
          subst h2
          simp [FS.write, FS.addDir, objectPath]))

/-- **C9** (confirmed).  Whenever the commit orchestration fails with an
error — at any step, including after the index has been read — the index
file's content is exactly what it was before the call (it is deleted only on
the all-successful path, after the reference update), and objects are never
rolled back: no file that existed before the call has been deleted, and the
objects written by earlier steps of the failing run itself are still stored
at the error exit — whenever the tree-building step returned a tree address,
that tree object file is present in the final state, and whenever the
commit-object step returned a commit address (the reference update or the
index removal being what failed), that commit object file is present too. -/
theorem commit_failure_preserves_index_and_objects (message : String) (fs : FS)
    (e : ErrKind) (h : (commit message fs).1 = .err e) :
    (commit message fs).2.files ".xit/index" = fs.files ".xit/index"
    ∧ (∀ q v, fs.files q = some v → ((commit message fs).2.files q).isSome = true)
    ∧ (∀ b tree_hash, fs.files ".xit/index" = some b →
        (create_tree_from_index (read_index (ofBytes b)) fs).1 = .ok tree_hash →
        ((commit message fs).2.files (objectPath tree_hash)).isSome = true)
    ∧ (∀ b tree_hash head_ref_path uc new_hash, fs.files ".xit/index" = some b →
        (create_tree_from_index (read_index (ofBytes b)) fs).1 = .ok tree_hash →
        get_head_ref_path (create_tree_from_index (read_index (ofBytes b)) fs).2
          = .ok head_ref_path →
        get_user_config (create_tree_from_index (read_index (ofBytes b)) fs).2 = .ok uc →
        (create_commit tree_hash
          ((get_commit_hash head_ref_path
            (create_tree_from_index (read_index (ofBytes b)) fs).2).toOption)
          (uc.name ++ " <" ++ uc.email ++ ">") (uc.name ++ " <" ++ uc.email ++ ">")
          message (create_tree_from_index (read_index (ofBytes b)) fs).2).1 = .ok new_hash →
        ((commit message fs).2.files (objectPath new_hash)).isSome = true) := by
  unfold commit at h ⊢
  cases hidx : fs.files ".xit/index" with
  | none =>
    refine ⟨by simp [hidx], fun q v hv => by simp [hidx, hv], ?_, ?_⟩
    · intro b th hb _
      exact absurd hb (by simp)
    · intro b th hrp uc' nh hb _ _ _ _
      exact absurd hb (by simp)
  | some bytes =>
    simp only [hidx] at h ⊢
    cases hemp : (read_index (ofBytes bytes)).isEmpty with
    | true => simp [hemp] at h
    | false =>
      simp only [hemp, Bool.false_eq_true, if_false] at h ⊢
      obtain ⟨hi1, hs1⟩ := create_tree_from_index_preserves (read_index (ofBytes bytes)) fs
      cases hct : create_tree_from_index (read_index (ofBytes bytes)) fs with
      | mk rct fs1 =>
        rw [hct] at hi1 hs1
        simp only [hct] at h ⊢
        cases rct with
        | ok tree_hash =>
          have htree := create_tree_from_index_writes_object
            (read_index (ofBytes bytes)) fs tree_hash fs1 hct
          cases hhr : get_head_ref_path fs1 with
          | ok head_ref_path =>
            simp only [hhr] at h ⊢
            cases huc : get_user_config fs1 with
            | ok uc =>
              simp only [huc] at h ⊢
              obtain ⟨hi2, hs2⟩ := create_commit_preserves tree_hash
                ((get_commit_hash head_ref_path fs1).toOption)
                (uc.name ++ " <" ++ uc.email ++ ">")
                (uc.name ++ " <" ++ uc.email ++ ">") message fs1
              cases hcc : create_commit tree_hash
                  ((get_commit_hash head_ref_path fs1).toOption)
                  (uc.name ++ " <" ++ uc.email ++ ">")
                  (uc.name ++ " <" ++ uc.email ++ ">") message fs1 with
              | mk rcc fs2 =>
                rw [hcc] at hi2 hs2
                simp only [hcc] at h ⊢
                cases rcc with
                | ok new_hash =>
                  obtain ⟨hi3, hs3⟩ := update_reference_preserves head_ref_path new_hash fs2
                  cases hur : update_reference head_ref_path new_hash fs2 with
                  | mk rur fs3 =>
                    rw [hur] at hi3 hs3
                    simp only [hur] at h ⊢
                    cases rur with
                    | ok u =>
                      cases hrm : fs3.files ".xit/index" with
                      | some c => simp [FS.removeFile, hrm] at h
                      | none =>
                        exact absurd
                          (hrm.symm.trans ((hi3.trans (hi2.trans hi1)).trans hidx))
                          (by simp)
                    | err e3 =>
                      refine ⟨(hi3.trans (hi2.trans hi1)).trans hidx, ?_, ?_, ?_⟩
                      · intro q v hv
                        exact hs3 q (hs2 q (hs1 q (by simp [hv])))
                      · intro b th hb hct3
                        injection hb with hb'
                        subst hb'
                        rw [hct] at hct3
                        have hth : tree_hash = th := by simpa using hct3
                        subst hth
                        exact hs3 _ (hs2 _ htree)
                      · intro b th hrp uc' nh hb hct4 hhr4 huc4 hcc4
                        injection hb with hb'
                        subst hb'
                        rw [hct] at hct4 hhr4 huc4 hcc4
                        have hth : tree_hash = th := by simpa using hct4
                        subst hth
                        have hhp : head_ref_path = hrp := by
                          simpa using hhr.symm.trans hhr4
                        subst hhp
                        have hu : uc = uc' := by
                          simpa using huc.symm.trans huc4
                        subst hu
                        have hnh : new_hash = nh := by
                          simpa using (congrArg Prod.fst hcc).symm.trans hcc4
                        subst hnh
                        exact hs3 _ (create_commit_writes_object _ _ _ _ _ _ _ _ hcc)
                    | panicked => simp at h
                    | outOfFuel => simp at h
                | err e2 =>
                  refine ⟨(hi2.trans hi1).trans hidx, ?_, ?_, ?_⟩
                  · intro q v hv
                    exact hs2 q (hs1 q (by simp [hv]))
                  · intro b th hb hct3
                    injection hb with hb'
                    subst hb'
                    rw [hct] at hct3
                    have hth : tree_hash = th := by simpa using hct3
                    subst hth
                    exact hs2 _ htree
                  · intro b th hrp uc' nh hb hct4 hhr4 huc4 hcc4
                    injection hb with hb'
                    subst hb'
                    rw [hct] at hct4 hhr4 huc4 hcc4
                    have hth : tree_hash = th := by simpa using hct4
                    subst hth
                    have hhp : head_ref_path = hrp := by
                      simpa using hhr.symm.trans hhr4
                    subst hhp
                    have hu : uc = uc' := by
                      simpa using huc.symm.trans huc4
                    subst hu
                    exact absurd ((congrArg Prod.fst hcc).symm.trans hcc4) (by simp)
                | panicked => simp at h
                | outOfFuel => simp at h
            | err e1 =>
              simp only [huc] at h ⊢
              refine ⟨hi1.trans hidx, fun q v hv => hs1 q (by simp [hv]), ?_, ?_⟩
              · intro b th hb hct3
                injection hb with hb'
                subst hb'
                rw [hct] at hct3
                have hth : tree_hash = th := by simpa using hct3
                subst hth
                exact htree
              · intro b th hrp uc' nh hb hct4 hhr4 huc4 hcc4
                injection hb with hb'
                subst hb'
                rw [hct] at huc4
                exact absurd (huc.symm.trans huc4) (by simp)
            | panicked => simp only [huc] at h; simp at h
            | outOfFuel => simp only [huc] at h; simp at h
          | err e1 =>
            simp only [hhr] at h ⊢
            refine ⟨hi1.trans hidx, fun q v hv => hs1 q (by simp [hv]), ?_, ?_⟩
            · intro b th hb hct3
              injection hb with hb'
              subst hb'
              rw [hct] at hct3
              have hth : tree_hash = th := by simpa using hct3
              subst hth
              exact htree
            · intro b th hrp uc' nh hb hct4 hhr4 huc4 hcc4
              injection hb with hb'
              subst hb'
              rw [hct] at hhr4
              exact absurd (hhr.symm.trans hhr4) (by simp)
          | panicked => simp only [hhr] at h; simp at h
          | outOfFuel => simp only [hhr] at h; simp at h
        | err e1 =>
          refine ⟨hi1.trans hidx, fun q v hv => hs1 q (by simp [hv]), ?_, ?_⟩
          · intro b th hb hct3
            injection hb with hb'
            subst hb'
            rw [hct] at hct3
            exact absurd hct3 (by simp)
          · intro b th hrp uc' nh hb hct4 _ _ _
            injection hb with hb'
            subst hb'
            rw [hct] at hct4
            exact absurd hct4 (by simp)
        | panicked => simp at h
        | outOfFuel => simp at h

/-- Witness for `commit_failure_preserves_index_and_objects`: on
`refFailRepoFS` the flow builds and stores the tree object and the commit
object, then the reference update fails — the spec's partial-failure
example — and at the error exit the index file is intact, the pre-existing
HEAD file survives, and both just-written objects are still stored. -/
theorem commit_failure_preserves_index_witness :
    (commit "m" refFailRepoFS).1 = .err .notFound
    ∧ (commit "m" refFailRepoFS).2.files ".xit/index" = refFailRepoFS.files ".xit/index"
    ∧ ((commit "m" refFailRepoFS).2.files ".xit/HEAD").isSome = true
    ∧ ((commit "m" refFailRepoFS).2.files
        (objectPath "cae8bd88f13aaaebffc1100bc33a4767d0556f36")).isSome = true
    ∧ ((commit "m" refFailRepoFS).2.files
        (objectPath "17c95c2fe391e74c0b15572b1105124fcb3dc924")).isSome = true :=
  ⟨by decide,
   (commit_failure_preserves_index_and_objects "m" refFailRepoFS .notFound (by decide)).1,
   (commit_failure_preserves_index_and_objects "m" refFailRepoFS .notFound
     (by decide)).2.1 ".xit/HEAD" (strBytes "ref: refs/heads/main\n") (by decide),
   (commit_failure_preserves_index_and_objects "m" refFailRepoFS .notFound
     (by decide)).2.2.1 (strBytes (addrZero ++ " a.txt\n"))
     "cae8bd88f13aaaebffc1100bc33a4767d0556f36" (by decide) (by decide),
   (commit_failure_preserves_index_and_objects "m" refFailRepoFS .notFound
     (by decide)).2.2.2 (strBytes (addrZero ++ " a.txt\n"))
     "cae8bd88f13aaaebffc1100bc33a4767d0556f36" "refs/heads/main" ⟨"A", "a@b.c"⟩
     "17c95c2fe391e74c0b15572b1105124fcb3dc924"
     (by decide) (by decide) (by decide) (by decide) (by decide)⟩
